import Mathlib

/-!
Verification of the contextual food-matching and recommendation-tracking core
of the NutriMood restaurant-recommendation chatbot.

The development shallowly embeds the relevant Python code
(`services/food_service.py`, `services/session_service.py`, `main.py`) as
executable Lean definitions and proves the behavioural properties stated in
the specification about them.

Modelling conventions:
* Python strings are Lean `String`s; `str.lower()` is `toLowerStr`,
  `str.strip()` is `pyStrip` (drops leading/trailing whitespace characters;
  the inputs considered here are ASCII, where the Python and Lean notions of
  whitespace coincide), `a in b` (substring test) is `substrB a b`, and
  `str.split()` is `pySplit` (split on whitespace runs, dropping empty
  tokens).  All of these are structurally recursive over the character list
  of the string, so concrete instances evaluate by `decide`.
* Python dicts with a fixed key set are Lean structures; a missing/`None`
  string field is the empty string.
* Relevance scores on the keyword path are sums of the integer weights
  10/5/4/2/1/3 and are therefore exact in Python floats; they are modelled
  as `Nat`.  Scores on the vector path are opaque descending sort keys
  (per the data-model section of the specification) and are modelled as `ℚ`,
  which represents the constants 1.0 and 0.1 exactly.
* `list.sort(key=lambda x: x[1], reverse=True)` is the stable descending
  insertion sort `sortDesc` below (Python's list sort is stable).
-/

/-- Whitespace test used by `pyStrip`/`pySplit` (models Python `str.isspace`
on the ASCII whitespace characters occurring in this code base). -/
def isWs (c : Char) : Bool := c.isWhitespace

/-- Python `str.lower()` (ASCII case folding, as `Char.toLower` only touches
basic latin letters - the vocabulary used by the heuristics). -/
def toLowerStr (s : String) : String := ⟨s.data.map Char.toLower⟩

/-- Drop leading and trailing whitespace from a character list. -/
def trimL (l : List Char) : List Char :=
  ((l.dropWhile isWs).reverse.dropWhile isWs).reverse

/-- Python `str.strip()`. -/
def pyStrip (s : String) : String := ⟨trimL s.data⟩

/-- Boolean prefix test on character lists. -/
def isPrefixL : List Char → List Char → Bool
  | [], _ => true
  | _ :: _, [] => false
  | c :: cs, d :: ds => c = d && isPrefixL cs ds

/-- Boolean infix (substring) test on character lists. -/
def isInfixL (needle : List Char) : List Char → Bool
  | [] => isPrefixL needle []
  | c :: rest => isPrefixL needle (c :: rest) || isInfixL needle rest

/-- Python `needle in hay` for strings: substring containment (the empty
needle is contained in everything, as in Python). -/
def substrB (needle hay : String) : Bool := isInfixL needle.data hay.data

/-- Tokenizer for Python `str.split()`: accumulates the current word in
reverse in `cur`. -/
def pySplitAux : List Char → List Char → List String
  | [], cur => if cur = [] then [] else [⟨cur.reverse⟩]
  | c :: rest, cur =>
      if isWs c then
        (if cur = [] then pySplitAux rest [] else ⟨cur.reverse⟩ :: pySplitAux rest [])
      else pySplitAux rest (c :: cur)

/-- Python `str.split()` with no argument: split on whitespace runs,
discarding empty tokens. -/
def pySplit (s : String) : List String := pySplitAux s.data []

/-- Python `' '.join(parts)`. -/
def joinSpace : List String → String
  | [] => ""
  | [s] => s
  | s :: rest => s ++ " " ++ joinSpace rest

theorem isPrefixL_iff : ∀ (n h : List Char), isPrefixL n h = true ↔ n <+: h
  | [], h => by simp [isPrefixL]
  | c :: cs, [] => by
      simp only [isPrefixL, Bool.false_eq_true, false_iff]
      intro hcon
      exact absurd (List.IsPrefix.length_le hcon) (by simp)
  | c :: cs, d :: ds => by
      simp only [isPrefixL, Bool.and_eq_true, decide_eq_true_eq,
        List.cons_prefix_cons, isPrefixL_iff cs ds]

theorem isInfixL_iff : ∀ (n h : List Char), isInfixL n h = true ↔ n <:+: h
  | n, [] => by
      simp only [isInfixL, isPrefixL_iff, List.prefix_nil, List.infix_nil]
  | n, c :: rest => by
      simp only [isInfixL, Bool.or_eq_true, isPrefixL_iff, isInfixL_iff n rest]
      exact (List.infix_cons_iff).symm

theorem substrB_iff (needle hay : String) :
    substrB needle hay = true ↔ needle.data <:+: hay.data :=
  isInfixL_iff _ _

/-- Stable insertion (descending by the second component): the new element
`p` goes in front of the first element whose score is `≤` its own, so an
element earlier in the input stays before later elements of equal score.
This matches Python's stable `sort(key=..., reverse=True)`. -/
def insertDesc {α β : Type} [LinearOrder β] (p : α × β) : List (α × β) → List (α × β)
  | [] => [p]
  | q :: r => if q.2 ≤ p.2 then p :: q :: r else q :: insertDesc p r

/-- Stable descending sort by the second component. -/
def sortDesc {α β : Type} [LinearOrder β] : List (α × β) → List (α × β)
  | [] => []
  | p :: rest => insertDesc p (sortDesc rest)

theorem insertDesc_perm {α β : Type} [LinearOrder β] (p : α × β) (l : List (α × β)) :
    List.Perm (insertDesc p l) (p :: l) := by
  induction l with
  | nil => simp [insertDesc]
  | cons q r ih =>
    by_cases h : q.2 ≤ p.2
    · rw [insertDesc, if_pos h]
    · rw [insertDesc, if_neg h]
      exact (ih.cons q).trans (List.Perm.swap p q r)

theorem sortDesc_perm {α β : Type} [LinearOrder β] (l : List (α × β)) :
    List.Perm (sortDesc l) l := by
  induction l with
  | nil => simp [sortDesc]
  | cons p rest ih =>
    exact (insertDesc_perm p (sortDesc rest)).trans (ih.cons p)

theorem insertDesc_pairwise {α β : Type} [LinearOrder β] (p : α × β) (l : List (α × β))
    (h : l.Pairwise (fun a b => b.2 ≤ a.2)) :
    (insertDesc p l).Pairwise (fun a b => b.2 ≤ a.2) := by
  induction l with
  | nil => simp [insertDesc]
  | cons q r ih =>
    rcases List.pairwise_cons.mp h with ⟨hq, hr⟩
    by_cases hle : q.2 ≤ p.2
    · rw [insertDesc, if_pos hle]
      refine List.pairwise_cons.mpr ⟨?_, h⟩
      intro x hx
      rcases List.mem_cons.mp hx with hx | hx
      · subst hx; exact hle
      · exact le_trans (hq x hx) hle
    · rw [insertDesc, if_neg hle]
      refine List.pairwise_cons.mpr ⟨?_, ih hr⟩
      intro x hx
      rcases List.mem_cons.mp ((insertDesc_perm p r).mem_iff.mp hx) with hx' | hx'
      · subst hx'; exact le_of_not_le hle
      · exact hq x hx'

theorem sortDesc_pairwise {α β : Type} [LinearOrder β] (l : List (α × β)) :
    (sortDesc l).Pairwise (fun a b => b.2 ≤ a.2) := by
  induction l with
  | nil => simp [sortDesc]
  | cons p rest ih => exact insertDesc_pairwise p (sortDesc rest) ih

/-- Stability of `insertDesc`, phrased through score-level filtering: the
elements of any fixed score appear in the same order as in `p :: l`. -/
theorem insertDesc_filter_score {α β : Type} [LinearOrder β]
    (p : α × β) (l : List (α × β)) (v : β) :
    (insertDesc p l).filter (fun x => x.2 = v) = (p :: l).filter (fun x => x.2 = v) := by
  induction l with
  | nil => rfl
  | cons q r ih =>
    by_cases hle : q.2 ≤ p.2
    · rw [insertDesc, if_pos hle]
    · rw [insertDesc, if_neg hle]
      by_cases hqv : q.2 = v
      · have hpv : ¬(p.2 = v) := fun hpv => hle (le_of_eq (hqv.trans hpv.symm))
        simp [List.filter_cons, hqv, hpv, ih]
      · simp only [List.filter_cons]
        by_cases hpv : p.2 = v
        · simp [hqv, hpv, ih, List.filter_cons]
        · simp [hqv, hpv, ih, List.filter_cons]

/-- Stability of `sortDesc`: filtering the sorted list down to any one score
value returns those elements in their original (catalog) order. -/
theorem sortDesc_filter_score {α β : Type} [LinearOrder β]
    (l : List (α × β)) (v : β) :
    (sortDesc l).filter (fun x => x.2 = v) = l.filter (fun x => x.2 = v) := by
  induction l with
  | nil => rfl
  | cons p rest ih =>
    rw [sortDesc, insertDesc_filter_score]
    simp only [List.filter_cons]
    by_cases hp : p.2 = v
    · simp [hp, ih]
    · simp [hp, ih]

/-- Catalog record (`FoodItem` in the data model).  Mirrors the fields of the
Python food dict that the matching core reads: `Id`/`id` (the code tries both
keys; modelled as the single field `id`, empty when missing),
`ProductName`/`name` (likewise a single field), `Description`,
`KioskCategoryName`, `SubCategoryName`, `dietary` (modelled as the list
produced by `_parse_json_field`, which is how every consumer in the core
reads it) and `calories` (`0` models both a stored `0` and a missing/`None`
value: `food.get('calories', 0)` and the Python truthiness tests make the
two observationally identical in `_apply_filters`, and in
`_calculate_relevance_score` the absent-key default `1000` also produces no
bonus, exactly like `0`). -/
structure Food where
  id : String
  name : String
  description : String
  category : String
  subcategory : String
  dietary : List String
  calories : Nat
deriving DecidableEq, Repr

/-- Structured filters accepted by `_apply_filters` (a Python dict with the
optional keys `category`, `max_calories`, `min_calories`, `dietary`). -/
structure Filters where
  category : Option String
  max_calories : Option Nat
  min_calories : Option Nat
  dietary : Option String
deriving DecidableEq, Repr

/-- `FoodService._apply_filters` (food_service.py lines 398-423).  Each
Python early `return False` becomes one conjunct. -/
def apply_filters (food : Food) (filters : Filters) : Bool :=
  (match filters.category with
   | some c => decide (food.category = c)
   | none => true)
  &&
  (match filters.max_calories with
   | some m => !(decide (food.calories ≠ 0) && decide (m < food.calories))
   | none => true)
  &&
  (match filters.min_calories with
   | some m => decide (food.calories ≠ 0) && !(decide (food.calories < m))
   | none => true)
  &&
  (match filters.dietary with
   | some d => decide (d ∈ food.dietary)
   | none => true)

/-- The `dietary_mappings` dict of `_calculate_relevance_score`, in Python
dict insertion order. -/
def dietary_mappings : List (String × List String) := [
  ("healthy", ["low-calorie", "high-protein", "low-fat", "vegetarian", "vegan"]),
  ("junk", ["fried", "burger", "pizza", "fries", "cheese"]),
  ("spicy", ["spicy", "hot", "chili", "pepper"]),
  ("sweet", ["sweet", "dessert", "chocolate", "cake"]),
  ("protein", ["high-protein", "chicken", "egg", "meat"]),
  ("vegetarian", ["vegetarian", "veg"]),
  ("vegan", ["vegan"])]

/-- `FoodService._calculate_relevance_score` (food_service.py lines 328-396).
All weight contributions are integers, so the Python float score is modelled
exactly as a `Nat`.  The parsed `ingredients` field is computed by the Python
code but never used (it does not occur in `searchable_text`), so it is
omitted. -/
def calculate_relevance_score (food : Food) (keywords : List String) (query : String) : Nat :=
  let query_lower := toLowerStr query
  let name := toLowerStr food.name
  let description := toLowerStr food.description
  let category := toLowerStr food.category
  let subcategory := toLowerStr food.subcategory
  let dietary_str := toLowerStr (joinSpace food.dietary)
  let searchable_text :=
    name ++ " " ++ description ++ " " ++ category ++ " " ++ subcategory ++ " " ++ dietary_str
  (if substrB query_lower name then 10 else 0)
  + (if keywords.any (fun k => substrB k category) then 5 else 0)
  + (if substrB query_lower description then 4 else 0)
  + (keywords.map (fun k =>
       (if substrB k searchable_text then 1 else 0)
       + (if substrB k name then 2 else 0))).sum
  + (dietary_mappings.map (fun dm =>
       if substrB dm.1 query_lower
          && dm.2.any (fun v => substrB v searchable_text || substrB v dietary_str)
       then 3 else 0)).sum
  + (if (substrB "low calorie" query_lower || substrB "healthy" query_lower)
        && (decide (food.calories ≠ 0) && decide (food.calories < 300)) then 2 else 0)
  + (if (substrB "high calorie" query_lower || substrB "junk" query_lower)
        && (decide (food.calories ≠ 0) && decide (400 < food.calories)) then 2 else 0)

/-- The `if filters and not self._apply_filters(food, filters)` skip test of
the scoring loop.  A Python `filters` that is `None` (or the empty, hence
falsy, dict - whose `_apply_filters` accepts every item anyway) is `none`. -/
def skipByFilters (filters : Option Filters) (food : Food) : Bool :=
  match filters with
  | some fl => !(apply_filters food fl)
  | none => false

/-- One step of the scoring loop of `_find_with_keyword_matching`: `none`
when the item is skipped (filters reject it, or it scores 0), otherwise the
`(food, score)` pair that is appended. -/
def scoreKeep (query : String) (keywords : List String) (filters : Option Filters)
    (food : Food) : Option (Food × Nat) :=
  if skipByFilters filters food then none
  else if 0 < calculate_relevance_score food keywords query
       then some (food, calculate_relevance_score food keywords query) else none

/-- Loop body of the scoring loop: append the kept pair, if any. -/
def scoredStep (query : String) (filters : Option Filters)
    (acc : List (Food × Nat)) (food : Food) : List (Food × Nat) :=
  match scoreKeep query (pySplit (toLowerStr query)) filters food with
  | some p => acc ++ [p]
  | none => acc

/-- The `scored_foods` list built by `_find_with_keyword_matching`
(food_service.py lines 294-306), in catalog order. -/
def scoredFoods (food_items : List Food) (query : String)
    (filters : Option Filters) : List (Food × Nat) :=
  food_items.foldl (scoredStep query filters) []

/-- `FoodService._find_with_keyword_matching` (food_service.py lines
274-310): empty catalog short-circuit, score-and-filter loop, stable
descending sort, truncation to `top_k`. -/
def find_with_keyword_matching (food_items : List Food) (query : String)
    (top_k : Nat) (filters : Option Filters) : List (Food × Nat) :=
  if food_items = [] then []
  else (sortDesc (scoredFoods food_items query filters)).take top_k

theorem foldl_scoredStep_eq (query : String) (filters : Option Filters)
    (food_items : List Food) (acc : List (Food × Nat)) :
    food_items.foldl (scoredStep query filters) acc
      = acc ++ food_items.filterMap (scoreKeep query (pySplit (toLowerStr query)) filters) := by
  induction food_items generalizing acc with
  | nil => simp
  | cons x xs ih =>
    cases hg : scoreKeep query (pySplit (toLowerStr query)) filters x with
    | none => simp [List.foldl_cons, scoredStep, hg, ih, List.filterMap_cons]
    | some b => simp [List.foldl_cons, scoredStep, hg, ih, List.filterMap_cons]

theorem scoredFoods_eq_filterMap (food_items : List Food) (query : String)
    (filters : Option Filters) :
    scoredFoods food_items query filters
      = food_items.filterMap (scoreKeep query (pySplit (toLowerStr query)) filters) := by
  unfold scoredFoods
  rw [foldl_scoredStep_eq]
  exact List.nil_append _

theorem scoreKeep_some {query : String} {keywords : List String}
    {filters : Option Filters} {food : Food} {p : Food × Nat}
    (h : scoreKeep query keywords filters food = some p) :
    p.1 = food ∧ 0 < p.2 ∧
      (∀ fl, filters = some fl → apply_filters food fl = true) := by
  unfold scoreKeep at h
  by_cases hb : skipByFilters filters food = true
  · rw [if_pos hb] at h
    cases h
  · rw [if_neg hb] at h
    by_cases hs : 0 < calculate_relevance_score food keywords query
    · rw [if_pos hs] at h
      cases h
      refine ⟨rfl, hs, ?_⟩
      intro fl hfl
      subst hfl
      simp only [skipByFilters] at hb
      simpa using hb
    · rw [if_neg hs] at h
      cases h

theorem mem_scoredFoods {food_items : List Food} {query : String}
    {filters : Option Filters} {p : Food × Nat}
    (h : p ∈ scoredFoods food_items query filters) :
    p.1 ∈ food_items ∧ 0 < p.2 ∧
      (∀ fl, filters = some fl → apply_filters p.1 fl = true) := by
  rw [scoredFoods_eq_filterMap] at h
  rcases List.mem_filterMap.mp h with ⟨food, hfood, hsome⟩
  rcases scoreKeep_some hsome with ⟨hfst, hpos, hfl⟩
  subst hfst
  exact ⟨hfood, hpos, hfl⟩

/-- Claim C4: on the keyword-fallback retrieval path the function is total
(a plain function of its inputs); an empty catalog yields `[]`; every
returned pair carries a strictly positive score and an item of the catalog;
the output is exactly the `top_k`-truncation of the stable descending sort
of the scored catalog items, hence it is sorted by descending score, never
exceeds `top_k` entries, and equal-score ties keep catalog order (witnessed
by the permutation property together with the score-level filter
equations). -/
theorem keyword_fallback_contract (query : String) (top_k : Nat)
    (filters : Option Filters) (food_items : List Food) :
    find_with_keyword_matching [] query top_k filters = [] ∧
    (∀ p ∈ find_with_keyword_matching food_items query top_k filters,
        0 < p.2 ∧ p.1 ∈ food_items) ∧
    (find_with_keyword_matching food_items query top_k filters).Pairwise
      (fun a b => b.2 ≤ a.2) ∧
    (find_with_keyword_matching food_items query top_k filters).length ≤ top_k ∧
    find_with_keyword_matching food_items query top_k filters
      = (sortDesc (scoredFoods food_items query filters)).take top_k ∧
    List.Perm (sortDesc (scoredFoods food_items query filters))
      (scoredFoods food_items query filters) ∧
    (∀ v : Nat,
      (sortDesc (scoredFoods food_items query filters)).filter (fun x => x.2 = v)
        = (scoredFoods food_items query filters).filter (fun x => x.2 = v)) := by
  have hempty : find_with_keyword_matching [] query top_k filters = [] := by
    simp [find_with_keyword_matching]
  have heq : find_with_keyword_matching food_items query top_k filters
      = (sortDesc (scoredFoods food_items query filters)).take top_k := by
    by_cases hni : food_items = []
    · subst hni
      simp [find_with_keyword_matching, scoredFoods, sortDesc]
    · simp [find_with_keyword_matching, hni]
  refine ⟨hempty, ?_, ?_, ?_, heq, sortDesc_perm _, fun v => sortDesc_filter_score _ v⟩
  · intro p hp
    rw [heq] at hp
    have hp' : p ∈ sortDesc (scoredFoods food_items query filters) :=
      List.take_subset _ _ hp
    have hp'' : p ∈ scoredFoods food_items query filters :=
      (sortDesc_perm _).mem_iff.mp hp'
    rcases mem_scoredFoods hp'' with ⟨hmem, hpos, _⟩
    exact ⟨hpos, hmem⟩
  · rw [heq]
    exact List.Pairwise.sublist (List.take_sublist _ _) (sortDesc_pairwise _)
  · rw [heq]
    calc ((sortDesc (scoredFoods food_items query filters)).take top_k).length
        = min top_k (sortDesc (scoredFoods food_items query filters)).length :=
          List.length_take _ _
      _ ≤ top_k := min_le_left _ _

/-- Witness for C4 at a concrete input: a one-item catalog and the query
"tea" return that item with score 13 > 0. -/
theorem keyword_fallback_contract_witness :
    0 < ((⟨"t1", "tea", "", "", "", [], 0⟩ : Food), 13).2 ∧
      ((⟨"t1", "tea", "", "", "", [], 0⟩ : Food), 13).1
        ∈ [(⟨"t1", "tea", "", "", "", [], 0⟩ : Food)] :=
  ((keyword_fallback_contract "tea" 5 none
      [⟨"t1", "tea", "", "", "", [], 0⟩]).2.1)
    ((⟨"t1", "tea", "", "", "", [], 0⟩ : Food), 13) (by decide)

/-- `food_name_lower.split('(')[0].strip()` of the extraction code: the part
of the (already lowercased) name before the first parenthesis, stripped. -/
def cleanName (name_lower : String) : String :=
  pyStrip ⟨name_lower.data.takeWhile (fun c => c ≠ '(')⟩

/-- `response_lower.replace('!',' ').replace('?',' ').replace('.',' ')
.replace(',',' ')` - the four chained replacements touch distinct
characters, so they amount to one character map. -/
def cleanResponse (response_lower : String) : String :=
  ⟨response_lower.data.map (fun c =>
    if c = '!' ∨ c = '?' ∨ c = '.' ∨ c = ',' then ' ' else c)⟩

/-- The `synonyms` dict of `extract_food_ids_from_response`, in Python dict
insertion order. -/
def synonyms : List (String × String) :=
  [("veggies", "vegetables"), ("veggie", "vegetables"), ("fries", "fry"),
   ("burger", "burger"), ("pizza", "pizza")]

/-- The guarded append `if food_id_str and food_id_str not in mentioned_ids:
mentioned_ids.append(food_id_str)`. -/
def addIfNew (acc : List String) (fid : String) : List String :=
  if fid ≠ "" ∧ fid ∉ acc then acc ++ [fid] else acc

/-- Append-if-absent (the effect of one guarded append on a non-empty id). -/
def gappend (acc : List String) (x : String) : List String :=
  if x ∉ acc then acc ++ [x] else acc

/-- The synonym test shared by method 2b of the first pass (lines 581-591)
and the synonym block of the second pass (lines 636-647): the synonym occurs
in the response, its replacement occurs in the cleaned name, and either no
other word of the cleaned name is longer than 3 characters or some such word
also occurs in the response. -/
def synCond (response_lower clean_name : String) (sr : String × String) : Bool :=
  substrB sr.1 response_lower && substrB sr.2 clean_name &&
    (((pySplit clean_name).filter (fun w => w ≠ sr.2 && 3 < w.length)).isEmpty
     || ((pySplit clean_name).filter (fun w => w ≠ sr.2 && 3 < w.length)).any
          (fun w => substrB w response_lower))

/-- The `for synonym, replacement in synonyms.items()` loop: on the first
synonym whose condition holds, append the id (if new) and break; if the
guard rejects the id the loop keeps going without appending. -/
def synLoop (response_lower clean_name fid : String) (acc : List String) :
    List (String × String) → List String
  | [] => acc
  | sr :: rest =>
      if synCond response_lower clean_name sr then
        (if fid ≠ "" ∧ fid ∉ acc then acc ++ [fid]
         else synLoop response_lower clean_name fid acc rest)
      else synLoop response_lower clean_name fid acc rest

/-- Method 3 of the first pass (lines 593-609): at least two of the
longer-than-3-character words of the cleaned name (plus synonym
replacements) occur in the punctuation-cleaned response. -/
def multiWordMatch (response_clean clean_name : String) : Bool :=
  if 2 ≤ (((pySplit clean_name).filter (fun w => 3 < w.length)).map pyStrip).length then
    2 ≤ ((((pySplit clean_name).filter (fun w => 3 < w.length)).map pyStrip).filter
           (fun w => substrB w response_clean)
         ++ synonyms.filterMap (fun sr =>
              if substrB sr.1 response_clean
                 && decide (sr.2 ∈ ((pySplit clean_name).filter (fun w => 3 < w.length)).map pyStrip)
              then some sr.2 else none)).length
  else false

/-- One first-pass candidate step of `extract_food_ids_from_response`
(food_service.py lines 550-609): skip invalid entries, then try exact name,
cleaned name, synonyms (2b) and the multi-word heuristic, with the original
`continue` structure (after a 2b append, method 3 still runs but its
duplicate guard blocks a second append). -/
def pass1Step (response_lower response_clean : String) (acc : List String)
    (food : Food) : List String :=
  if food.name = "" ∨ food.id = "" ∨ pyStrip food.id = "" then acc
  else if substrB (toLowerStr food.name) response_lower then
    addIfNew acc (pyStrip food.id)
  else if cleanName (toLowerStr food.name) ≠ ""
          ∧ substrB (cleanName (toLowerStr food.name)) response_lower = true then
    addIfNew acc (pyStrip food.id)
  else if multiWordMatch response_clean (cleanName (toLowerStr food.name)) then
    addIfNew
      (synLoop response_lower (cleanName (toLowerStr food.name)) (pyStrip food.id) acc synonyms)
      (pyStrip food.id)
  else
    synLoop response_lower (cleanName (toLowerStr food.name)) (pyStrip food.id) acc synonyms

/-- One second-pass catalog step (food_service.py lines 616-647): skip items
without name/id or already captured, then exact/cleaned-name match, else the
synonym block.  (The second pass deliberately omits the multi-word
heuristic.) -/
def pass2Step (response_lower : String) (acc : List String) (food : Food) :
    List String :=
  if food.name = "" ∨ food.id = "" ∨ pyStrip food.id ∈ acc then acc
  else if substrB (cleanName (toLowerStr food.name)) response_lower
          ∨ substrB (toLowerStr food.name) response_lower = true then
    addIfNew acc (pyStrip food.id)
  else
    synLoop response_lower (cleanName (toLowerStr food.name)) (pyStrip food.id) acc synonyms

/-- First-pass fold body: candidates are `(food, score)` pairs and only the
food is inspected. -/
def pass1Fold (response_lower response_clean : String) (acc : List String)
    (fm : Food × ℚ) : List String :=
  pass1Step response_lower response_clean acc fm.1

/-- `FoodService.extract_food_ids_from_response` (food_service.py lines
515-654): early return on an empty candidate list, then the first pass over
the offered candidates and the second pass over the whole catalog.  (The
`response_words` set computed at line 613 is never used by the Python code
and is omitted.) -/
def extract_food_ids_from_response (response : String)
    (food_matches : List (Food × ℚ)) (food_items : List Food) : List String :=
  if food_matches = [] then []
  else
    food_items.foldl (pass2Step (toLowerStr response))
      (food_matches.foldl
        (pass1Fold (toLowerStr response) (cleanResponse (toLowerStr response))) [])

/-- State-independent matching predicate of one first-pass candidate: the
validity check plus the disjunction of the four per-candidate heuristics.
None of the heuristics depends on the ids accumulated so far, only the
duplicate guard of the append does. -/
def matchPass1 (response_lower response_clean : String) (food : Food) : Bool :=
  !(decide (food.name = "" ∨ food.id = "" ∨ pyStrip food.id = "")) &&
  (substrB (toLowerStr food.name) response_lower
   || (decide (cleanName (toLowerStr food.name) ≠ "")
       && substrB (cleanName (toLowerStr food.name)) response_lower)
   || synonyms.any (synCond response_lower (cleanName (toLowerStr food.name)))
   || multiWordMatch response_clean (cleanName (toLowerStr food.name)))

/-- State-independent matching predicate of one second-pass catalog item:
exact/cleaned-name containment or the synonym block, never the multi-word
heuristic. -/
def matchPass2 (response_lower : String) (food : Food) : Bool :=
  !(decide (food.name = "" ∨ food.id = "" ∨ pyStrip food.id = "")) &&
  (substrB (cleanName (toLowerStr food.name)) response_lower
   || substrB (toLowerStr food.name) response_lower
   || synonyms.any (synCond response_lower (cleanName (toLowerStr food.name))))

theorem synLoop_eq (rl clean fid : String) (acc : List String)
    (syns : List (String × String)) :
    synLoop rl clean fid acc syns
      = if syns.any (synCond rl clean) = true ∧ fid ≠ "" ∧ fid ∉ acc
        then acc ++ [fid] else acc := by
  induction syns with
  | nil => simp [synLoop]
  | cons sr rest ih =>
    by_cases hc : synCond rl clean sr = true
    · by_cases hg : fid ≠ "" ∧ fid ∉ acc
      · rw [synLoop, if_pos hc, if_pos hg,
          if_pos ⟨by simp [List.any_cons, hc], hg.1, hg.2⟩]
      · rw [synLoop, if_pos hc, if_neg hg, ih,
          if_neg (fun hh => hg ⟨hh.2.1, hh.2.2⟩), if_neg (fun hh => hg ⟨hh.2.1, hh.2.2⟩)]
    · rw [synLoop, if_neg hc, ih]
      simp only [List.any_cons, Bool.eq_false_iff.mpr hc, Bool.false_or]

theorem addIfNew_eq_gappend {fid : String} (h : fid ≠ "") (acc : List String) :
    addIfNew acc fid = gappend acc fid := by
  unfold addIfNew gappend
  by_cases hm : fid ∈ acc
  · rw [if_neg (fun hh => hh.2 hm), if_neg (fun hh => hh hm)]
  · rw [if_pos ⟨h, hm⟩, if_pos hm]

theorem mem_gappend_self (acc : List String) (x : String) : x ∈ gappend acc x := by
  unfold gappend
  by_cases hm : x ∈ acc
  · rw [if_neg (fun hh => hh hm)]; exact hm
  · rw [if_pos hm]; exact List.mem_append_right _ (List.mem_singleton.mpr rfl)

theorem addIfNew_gappend_self (acc : List String) (x : String) :
    addIfNew (gappend acc x) x = gappend acc x := by
  unfold addIfNew
  rw [if_neg (fun hh => hh.2 (mem_gappend_self acc x))]

theorem pass1Step_eq (rl rc : String) (acc : List String) (f : Food) :
    pass1Step rl rc acc f
      = if matchPass1 rl rc f = true then gappend acc (pyStrip f.id) else acc := by
  by_cases hv : f.name = "" ∨ f.id = "" ∨ pyStrip f.id = ""
  · have hm : matchPass1 rl rc f = false := by
      unfold matchPass1
      simp [hv]
    rw [pass1Step, if_pos hv, hm]
    simp
  · have hfid : pyStrip f.id ≠ "" := fun hh => hv (Or.inr (Or.inr hh))
    rw [pass1Step, if_neg hv]
    by_cases h1 : substrB (toLowerStr f.name) rl = true
    · have hm : matchPass1 rl rc f = true := by
        unfold matchPass1
        simp [hv, h1]
      rw [if_pos h1, addIfNew_eq_gappend hfid, hm]
      simp
    · rw [if_neg h1]
      by_cases h2 : cleanName (toLowerStr f.name) ≠ ""
          ∧ substrB (cleanName (toLowerStr f.name)) rl = true
      · have hm : matchPass1 rl rc f = true := by
          unfold matchPass1
          simp [hv, h2.1, h2.2]
        rw [if_pos h2, addIfNew_eq_gappend hfid, hm]
        simp
      · rw [if_neg h2, synLoop_eq]
        by_cases hsyn : synonyms.any
            (synCond rl (cleanName (toLowerStr f.name))) = true
        · have hsl : (if synonyms.any (synCond rl (cleanName (toLowerStr f.name))) = true
                ∧ pyStrip f.id ≠ "" ∧ pyStrip f.id ∉ acc
              then acc ++ [pyStrip f.id] else acc) = gappend acc (pyStrip f.id) := by
            unfold gappend
            by_cases hmem : pyStrip f.id ∈ acc
            · rw [if_neg (fun hh => hh.2.2 hmem), if_neg (fun hh => hh hmem)]
            · rw [if_pos ⟨hsyn, hfid, hmem⟩, if_pos hmem]
          have hm : matchPass1 rl rc f = true := by
            unfold matchPass1
            simp [hv, hsyn]
          rw [hsl, hm]
          by_cases h3 : multiWordMatch rc (cleanName (toLowerStr f.name)) = true
          · rw [if_pos h3, addIfNew_gappend_self]
            simp
          · rw [if_neg h3]
            simp
        · have hsl : (if synonyms.any (synCond rl (cleanName (toLowerStr f.name))) = true
                ∧ pyStrip f.id ≠ "" ∧ pyStrip f.id ∉ acc
              then acc ++ [pyStrip f.id] else acc) = acc :=
            if_neg (fun hh => hsyn hh.1)
          rw [hsl]
          by_cases h3 : multiWordMatch rc (cleanName (toLowerStr f.name)) = true
          · have hm : matchPass1 rl rc f = true := by
              unfold matchPass1
              simp [hv, h3]
            rw [if_pos h3, addIfNew_eq_gappend hfid, hm]
            simp
          · have hm : matchPass1 rl rc f = false := by
              rw [Bool.eq_false_iff]
              intro hcon
              unfold matchPass1 at hcon
              simp only [Bool.and_eq_true, Bool.or_eq_true, Bool.not_eq_true',
                decide_eq_true_eq, Bool.and_eq_true] at hcon
              rcases hcon with ⟨-, hd⟩
              rcases hd with ((hh | hh) | hh) | hh
              · exact h1 hh
              · exact h2 ⟨hh.1, hh.2⟩
              · exact hsyn hh
              · exact h3 hh
            rw [if_neg h3, hm]
            simp

theorem pass2Step_eq (rl : String) (acc : List String) (f : Food) :
    pass2Step rl acc f
      = if matchPass2 rl f = true then gappend acc (pyStrip f.id) else acc := by
  by_cases hni : f.name = "" ∨ f.id = ""
  · have hm : matchPass2 rl f = false := by
      unfold matchPass2
      rcases hni with h | h <;> simp [h]
    rw [pass2Step, if_pos (by tauto), hm]
    simp
  · by_cases hidT : pyStrip f.id = ""
    · have hm : matchPass2 rl f = false := by
        unfold matchPass2
        simp [hidT]
      rw [hm]
      by_cases hmem : pyStrip f.id ∈ acc
      · rw [pass2Step, if_pos (Or.inr (Or.inr hmem))]
        simp
      · rw [pass2Step, if_neg (by tauto)]
        by_cases hb : substrB (cleanName (toLowerStr f.name)) rl = true
            ∨ substrB (toLowerStr f.name) rl = true
        · rw [if_pos hb]
          unfold addIfNew
          rw [if_neg (fun hh => hh.1 hidT)]
          simp
        · rw [if_neg hb, synLoop_eq, if_neg (fun hh => hh.2.1 hidT)]
          simp
    · have hvx : ¬(f.name = "" ∨ f.id = "" ∨ pyStrip f.id = "") := by tauto
      by_cases hmem : pyStrip f.id ∈ acc
      · rw [pass2Step, if_pos (Or.inr (Or.inr hmem))]
        by_cases hm : matchPass2 rl f = true
        · rw [hm]
          simp [gappend, hmem]
        · simp [hm]
      · rw [pass2Step, if_neg (by tauto)]
        by_cases hb : substrB (cleanName (toLowerStr f.name)) rl = true
            ∨ substrB (toLowerStr f.name) rl = true
        · have hm : matchPass2 rl f = true := by
            unfold matchPass2
            rcases hb with h | h <;> simp [hvx, h]
          rw [if_pos hb, addIfNew_eq_gappend hidT, hm]
          simp
        · rw [if_neg hb, synLoop_eq]
          by_cases hsyn : synonyms.any
              (synCond rl (cleanName (toLowerStr f.name))) = true
          · have hm : matchPass2 rl f = true := by
              unfold matchPass2
              simp [hvx, hsyn]
            rw [if_pos ⟨hsyn, hidT, hmem⟩, hm]
            simp [gappend, hmem]
          · have hm : matchPass2 rl f = false := by
              rw [Bool.eq_false_iff]
              intro hcon
              unfold matchPass2 at hcon
              simp only [Bool.and_eq_true, Bool.or_eq_true, Bool.not_eq_true',
                decide_eq_true_eq] at hcon
              rcases hcon with ⟨-, hd⟩
              rcases hd with (hh | hh) | hh
              · exact hb (Or.inl hh)
              · exact hb (Or.inr hh)
              · exact hsyn hh
            rw [if_neg (fun hh => hsyn hh.1), hm]
            simp

/-- Folding guarded appends over a stream of ids: keep the first occurrence
of each id, in stream order, after the already-accumulated prefix. -/
def dedupAppend (acc : List String) : List String → List String
  | [] => acc
  | x :: xs => dedupAppend (gappend acc x) xs

theorem foldl_pass1_eq (rl rc : String) (cands : List (Food × ℚ))
    (acc : List String) :
    cands.foldl (pass1Fold rl rc) acc
      = dedupAppend acc
          (((cands.map Prod.fst).filter (matchPass1 rl rc)).map
            (fun f => pyStrip f.id)) := by
  induction cands generalizing acc with
  | nil => simp [dedupAppend]
  | cons fm rest ih =>
    by_cases hm : matchPass1 rl rc fm.1 = true
    · simp [List.foldl_cons, pass1Fold, pass1Step_eq, hm, List.filter_cons,
        dedupAppend, ih]
    · simp [List.foldl_cons, pass1Fold, pass1Step_eq, hm, List.filter_cons,
        dedupAppend, ih]

theorem foldl_pass2_eq (rl : String) (items : List Food) (acc : List String) :
    items.foldl (pass2Step rl) acc
      = dedupAppend acc
          ((items.filter (matchPass2 rl)).map (fun f => pyStrip f.id)) := by
  induction items generalizing acc with
  | nil => simp [dedupAppend]
  | cons f rest ih =>
    by_cases hm : matchPass2 rl f = true
    · simp [List.foldl_cons, pass2Step_eq, hm, List.filter_cons, dedupAppend, ih]
    · simp [List.foldl_cons, pass2Step_eq, hm, List.filter_cons, dedupAppend, ih]

theorem dedupAppend_append (acc l1 l2 : List String) :
    dedupAppend acc (l1 ++ l2) = dedupAppend (dedupAppend acc l1) l2 := by
  induction l1 generalizing acc with
  | nil => simp [dedupAppend]
  | cons x xs ih => simp [dedupAppend, ih]

/-- Characterization of `extract_food_ids_from_response` for a non-empty
candidate list: the result is the first-occurrence deduplication of the
stream of stripped ids of the matching candidates (in candidate order)
followed by the stripped ids of the matching catalog items (in catalog
order). -/
theorem extract_eq_dedup (response : String) (cands : List (Food × ℚ))
    (cat : List Food) (h : cands ≠ []) :
    extract_food_ids_from_response response cands cat
      = dedupAppend []
          ((((cands.map Prod.fst).filter
              (matchPass1 (toLowerStr response) (cleanResponse (toLowerStr response)))).map
              (fun f => pyStrip f.id))
            ++ ((cat.filter (matchPass2 (toLowerStr response))).map
              (fun f => pyStrip f.id))) := by
  rw [extract_food_ids_from_response, if_neg h, foldl_pass1_eq, foldl_pass2_eq,
    dedupAppend_append]

theorem mem_gappend {acc : List String} {x y : String} :
    y ∈ gappend acc x ↔ y ∈ acc ∨ y = x := by
  unfold gappend
  by_cases hm : x ∈ acc
  · rw [if_neg (fun hh => hh hm)]
    constructor
    · exact Or.inl
    · rintro (hy | rfl)
      · exact hy
      · exact hm
  · rw [if_pos hm]
    simp

theorem mem_dedupAppend {x : String} :
    ∀ (l acc : List String), x ∈ dedupAppend acc l ↔ x ∈ acc ∨ x ∈ l := by
  intro l
  induction l with
  | nil => intro acc; simp [dedupAppend]
  | cons y ys ih =>
    intro acc
    rw [dedupAppend, ih, mem_gappend]
    constructor
    · rintro ((hy | rfl) | hy)
      · exact Or.inl hy
      · exact Or.inr (List.mem_cons_self _ _)
      · exact Or.inr (List.mem_cons_of_mem _ hy)
    · rintro (hy | hy)
      · exact Or.inl (Or.inl hy)
      · rcases List.mem_cons.mp hy with rfl | hy
        · exact Or.inl (Or.inr rfl)
        · exact Or.inr hy

theorem nodup_gappend {acc : List String} (x : String) (h : acc.Nodup) :
    (gappend acc x).Nodup := by
  unfold gappend
  by_cases hm : x ∈ acc
  · rw [if_neg (fun hh => hh hm)]
    exact h
  · rw [if_pos hm]
    simp [List.nodup_append, h, hm]

theorem nodup_dedupAppend :
    ∀ (l acc : List String), acc.Nodup → (dedupAppend acc l).Nodup := by
  intro l
  induction l with
  | nil => intro acc h; exact h
  | cons y ys ih =>
    intro acc h
    rw [dedupAppend]
    exact ih _ (nodup_gappend y h)

theorem dedupAppend_split : ∀ (l acc : List String),
    ∃ rest, dedupAppend acc l = acc ++ rest := by
  intro l
  induction l with
  | nil => intro acc; exact ⟨[], by simp [dedupAppend]⟩
  | cons y ys ih =>
    intro acc
    rw [dedupAppend]
    unfold gappend
    by_cases hm : y ∈ acc
    · rw [if_neg (fun hh => hh hm)]
      exact ih acc
    · rw [if_pos hm]
      rcases ih (acc ++ [y]) with ⟨rest, hrest⟩
      exact ⟨[y] ++ rest, by rw [hrest, List.append_assoc]⟩

/-- First-occurrence order: an id already captured from the `front` part of
the stream is indexed strictly before any id that only occurs in the `back`
part. -/
theorem dedupAppend_index_lt (front back : List String) (x y : String)
    (hx : x ∈ front) (hy : y ∉ front) :
    (dedupAppend [] (front ++ back)).indexOf x
      < (dedupAppend [] (front ++ back)).indexOf y := by
  rw [dedupAppend_append]
  have hxA : x ∈ dedupAppend [] front := (mem_dedupAppend front []).mpr (Or.inr hx)
  have hyA : y ∉ dedupAppend [] front := by
    intro hcon
    rcases (mem_dedupAppend front []).mp hcon with hcon | hcon
    · exact absurd hcon (List.not_mem_nil y)
    · exact hy hcon
  rcases dedupAppend_split back (dedupAppend [] front) with ⟨rest, hrest⟩
  rw [hrest]
  calc (dedupAppend [] front ++ rest).indexOf x
      = (dedupAppend [] front).indexOf x := List.indexOf_append_of_mem hxA
    _ < (dedupAppend [] front).length := List.indexOf_lt_length.mpr hxA
    _ ≤ (dedupAppend [] front).length + rest.indexOf y := Nat.le_add_right _ _
    _ = (dedupAppend [] front ++ rest).indexOf y :=
        (List.indexOf_append_of_not_mem hyA).symm

/-- The index of the first occurrence of `needle` as a substring of `hay`,
if any (used to state response-text positions in concrete counterexamples). -/
def subIdx (needle hay : String) : Option Nat :=
  (List.range (hay.data.length + 1)).find?
    (fun i => isPrefixL needle.data (hay.data.drop i))

/-- Claim C2: for every response text, candidate list and catalog, the id
list returned by `extract_food_ids_from_response` contains no id twice - no
matter how many of the matching heuristics fire for the same item, every
append is guarded by membership in the accumulated list. -/
theorem extract_no_duplicate_ids (response : String) (cands : List (Food × ℚ))
    (cat : List Food) :
    (extract_food_ids_from_response response cands cat).Nodup := by
  by_cases h : cands = []
  · subst h
    rw [extract_food_ids_from_response, if_pos rfl]
    exact List.nodup_nil
  · rw [extract_eq_dedup response cands cat h]
    exact nodup_dedupAppend _ [] List.nodup_nil

/-- Claim C1 counterexample: with candidates `[B, A]` where `B` is named
"bb" (id "2") and `A` is named "aa" (id "1") and response "aa bb", `A`'s
name occurs at position 0, strictly before `B`'s name at position 3, and
both candidates are matched - yet the function returns `["2", "1"]`: `A`'s
id comes *after* `B`'s id, because output order follows the candidate scan
order, not the position of the names in the response text.  This refutes
the claim as stated. -/
theorem extract_order_counterexample :
    subIdx "aa" "aa bb" = some 0 ∧ subIdx "bb" "aa bb" = some 3 ∧
    extract_food_ids_from_response "aa bb"
      [((⟨"2", "bb", "", "", "", [], 0⟩ : Food), (1 : ℚ)),
       ((⟨"1", "aa", "", "", "", [], 0⟩ : Food), (1 : ℚ))] []
      = ["2", "1"] ∧
    ¬(List.indexOf "1" ["2", "1"] < List.indexOf "2" ["2", "1"]) := by
  refine ⟨by decide, by decide, by decide, by decide⟩

/-- Claim C1 (amended): the output of `extract_food_ids_from_response`
preserves first-capture order relative to the *scan order* of the candidate
list (and then the catalog), not the position of names inside the response.
Concretely: if candidate `A` occurs before candidate `B` in the candidate
list, both satisfy the (state-independent) per-candidate matching
predicate, their stripped ids differ, and no candidate up to and including
`A`'s position carries `B`'s id and matches, then `B`'s id appears in the
output and `A`'s id is indexed strictly before `B`'s id. -/
theorem extract_order_follows_scan (response : String) (cat : List Food)
    (pre mid post : List (Food × ℚ)) (A B : Food × ℚ)
    (hA : matchPass1 (toLowerStr response) (cleanResponse (toLowerStr response)) A.1 = true)
    (hB : matchPass1 (toLowerStr response) (cleanResponse (toLowerStr response)) B.1 = true)
    (hne : pyStrip A.1.id ≠ pyStrip B.1.id)
    (hpre : ∀ fm ∈ pre,
        matchPass1 (toLowerStr response) (cleanResponse (toLowerStr response)) fm.1 = true →
        pyStrip fm.1.id ≠ pyStrip B.1.id) :
    pyStrip B.1.id
        ∈ extract_food_ids_from_response response (pre ++ A :: (mid ++ B :: post)) cat ∧
    List.indexOf (pyStrip A.1.id)
        (extract_food_ids_from_response response (pre ++ A :: (mid ++ B :: post)) cat)
      < List.indexOf (pyStrip B.1.id)
        (extract_food_ids_from_response response (pre ++ A :: (mid ++ B :: post)) cat) := by
  have hcne : (pre ++ A :: (mid ++ B :: post) : List (Food × ℚ)) ≠ [] := by simp
  rw [extract_eq_dedup response _ cat hcne]
  have hs1 : (((pre ++ A :: (mid ++ B :: post)).map Prod.fst).filter
        (matchPass1 (toLowerStr response) (cleanResponse (toLowerStr response)))).map
        (fun f => pyStrip f.id)
      = (((pre.map Prod.fst).filter
            (matchPass1 (toLowerStr response) (cleanResponse (toLowerStr response)))).map
            (fun f => pyStrip f.id))
        ++ pyStrip A.1.id
          :: (((mid.map Prod.fst ++ B.1 :: post.map Prod.fst).filter
                (matchPass1 (toLowerStr response) (cleanResponse (toLowerStr response)))).map
                (fun f => pyStrip f.id)) := by
    simp [List.map_append, List.map_cons, List.filter_append, List.filter_cons, hA]
  rw [hs1]
  have hstream :
      ((((pre.map Prod.fst).filter
            (matchPass1 (toLowerStr response) (cleanResponse (toLowerStr response)))).map
            (fun f => pyStrip f.id))
        ++ pyStrip A.1.id
          :: (((mid.map Prod.fst ++ B.1 :: post.map Prod.fst).filter
                (matchPass1 (toLowerStr response) (cleanResponse (toLowerStr response)))).map
                (fun f => pyStrip f.id)))
       ++ ((cat.filter (matchPass2 (toLowerStr response))).map (fun f => pyStrip f.id))
      = ((((pre.map Prod.fst).filter
            (matchPass1 (toLowerStr response) (cleanResponse (toLowerStr response)))).map
            (fun f => pyStrip f.id)) ++ [pyStrip A.1.id])
        ++ ((((mid.map Prod.fst ++ B.1 :: post.map Prod.fst).filter
                (matchPass1 (toLowerStr response) (cleanResponse (toLowerStr response)))).map
                (fun f => pyStrip f.id))
          ++ ((cat.filter (matchPass2 (toLowerStr response))).map (fun f => pyStrip f.id))) := by
    simp [List.append_assoc]
  rw [hstream]
  have hxA : pyStrip A.1.id
      ∈ (((pre.map Prod.fst).filter
            (matchPass1 (toLowerStr response) (cleanResponse (toLowerStr response)))).map
            (fun f => pyStrip f.id)) ++ [pyStrip A.1.id] :=
    List.mem_append_right _ (List.mem_singleton.mpr rfl)
  have hyB : pyStrip B.1.id
      ∉ (((pre.map Prod.fst).filter
            (matchPass1 (toLowerStr response) (cleanResponse (toLowerStr response)))).map
            (fun f => pyStrip f.id)) ++ [pyStrip A.1.id] := by
    intro hcon
    rcases List.mem_append.mp hcon with hcon | hcon
    · rcases List.mem_map.mp hcon with ⟨f, hf, hfe⟩
      rcases List.mem_filter.mp hf with ⟨hfmem, hfp⟩
      rcases List.mem_map.mp hfmem with ⟨fm, hfm, rfl⟩
      exact hpre fm hfm hfp hfe
    · exact hne (List.mem_singleton.mp hcon).symm
  have hyback : pyStrip B.1.id
      ∈ (((mid.map Prod.fst ++ B.1 :: post.map Prod.fst).filter
            (matchPass1 (toLowerStr response) (cleanResponse (toLowerStr response)))).map
            (fun f => pyStrip f.id))
        ++ ((cat.filter (matchPass2 (toLowerStr response))).map (fun f => pyStrip f.id)) := by
    apply List.mem_append_left
    apply List.mem_map.mpr
    refine ⟨B.1, List.mem_filter.mpr ⟨?_, hB⟩, rfl⟩
    exact List.mem_append_right _ (List.mem_cons_self _ _)
  constructor
  · rw [mem_dedupAppend]
    right
    rw [List.mem_append]
    right
    exact hyback
  · exact dedupAppend_index_lt _ _ _ _ hxA hyB

/-- Witness for the amended C1 at a concrete input: candidates `[A, B]` with
`A` = ("1", "aa") and `B` = ("2", "bb"), response "aa bb": id "2" is in the
output and id "1" is indexed before it. -/
theorem extract_order_follows_scan_witness :
    pyStrip (Food.mk "2" "bb" "" "" "" [] 0).id
        ∈ extract_food_ids_from_response "aa bb"
            ([] ++ ((⟨"1", "aa", "", "", "", [], 0⟩ : Food), (1 : ℚ))
              :: ([] ++ ((⟨"2", "bb", "", "", "", [], 0⟩ : Food), (1 : ℚ)) :: [])) [] ∧
    List.indexOf (pyStrip (Food.mk "1" "aa" "" "" "" [] 0).id)
        (extract_food_ids_from_response "aa bb"
            ([] ++ ((⟨"1", "aa", "", "", "", [], 0⟩ : Food), (1 : ℚ))
              :: ([] ++ ((⟨"2", "bb", "", "", "", [], 0⟩ : Food), (1 : ℚ)) :: [])) [])
      < List.indexOf (pyStrip (Food.mk "2" "bb" "" "" "" [] 0).id)
        (extract_food_ids_from_response "aa bb"
            ([] ++ ((⟨"1", "aa", "", "", "", [], 0⟩ : Food), (1 : ℚ))
              :: ([] ++ ((⟨"2", "bb", "", "", "", [], 0⟩ : Food), (1 : ℚ)) :: [])) []) :=
  extract_order_follows_scan "aa bb" [] [] [] []
    ((⟨"1", "aa", "", "", "", [], 0⟩ : Food), (1 : ℚ))
    ((⟨"2", "bb", "", "", "", [], 0⟩ : Food), (1 : ℚ))
    (by decide) (by decide) (by decide) (by simp)

/-- Claim C3 counterexample: with an *empty* candidate list the function
returns `[]` immediately (food_service.py line 531-532) and the second pass
never runs, even though the catalog item "Maska Bun" appears verbatim in
the response.  This refutes the "(including the empty candidate list)" part
of the claim. -/
theorem extract_empty_candidates_counterexample :
    extract_food_ids_from_response "maska bun" []
        [⟨"7", "Maska Bun", "", "", "", [], 0⟩] = [] ∧
    substrB (toLowerStr "Maska Bun") (toLowerStr "maska bun") = true := by
  refine ⟨by decide, by decide⟩

/-- Claim C3 (amended): provided the candidate list is *non-empty* (on an
empty candidate list the function returns `[]` before the second pass), every
catalog item with a non-empty name and a non-empty stripped id whose full
name or parenthetical-stripped cleaned name appears case-insensitively in
the response has its stripped id in the output (whether captured by the
first pass or by the second, whole-catalog pass). -/
theorem extract_second_pass_catalog_inclusion (response : String)
    (cands : List (Food × ℚ)) (cat : List Food) (f : Food)
    (hc : cands ≠ []) (hf : f ∈ cat) (hn : f.name ≠ "") (hid : f.id ≠ "")
    (hidT : pyStrip f.id ≠ "")
    (hmatch : substrB (cleanName (toLowerStr f.name)) (toLowerStr response) = true
            ∨ substrB (toLowerStr f.name) (toLowerStr response) = true) :
    pyStrip f.id ∈ extract_food_ids_from_response response cands cat := by
  rw [extract_eq_dedup response cands cat hc, mem_dedupAppend]
  right
  rw [List.mem_append]
  right
  apply List.mem_map.mpr
  refine ⟨f, List.mem_filter.mpr ⟨hf, ?_⟩, rfl⟩
  unfold matchPass2
  have hvx : ¬(f.name = "" ∨ f.id = "" ∨ pyStrip f.id = "") := by tauto
  rcases hmatch with h | h <;> simp [hvx, h]

/-- Witness for the amended C3 at a concrete input: a non-empty candidate
list whose only candidate does not match, and a catalog containing
"Maska Bun", which appears in the response: its id "7" is extracted. -/
theorem extract_second_pass_catalog_inclusion_witness :
    pyStrip (Food.mk "7" "Maska Bun" "" "" "" [] 0).id
      ∈ extract_food_ids_from_response "try the maska bun"
          [((⟨"9", "zzz", "", "", "", [], 0⟩ : Food), (1 : ℚ))]
          [⟨"7", "Maska Bun", "", "", "", [], 0⟩] :=
  extract_second_pass_catalog_inclusion "try the maska bun"
    [((⟨"9", "zzz", "", "", "", [], 0⟩ : Food), (1 : ℚ))]
    [⟨"7", "Maska Bun", "", "", "", [], 0⟩]
    (⟨"7", "Maska Bun", "", "", "", [], 0⟩)
    (by simp) (by simp) (by decide) (by decide) (by decide)
    (Or.inl (by decide))

/-- The hardcoded signature-item allowlist of `_get_signature_items`
(food_service.py lines 237-242). -/
def signature_names : List String :=
  ["Niloufer Special Tea", "Niloufer Special Coffee", "Maska Bun", "Khara Bun"]

/-- `FoodService._get_signature_items` (food_service.py lines 232-272),
local-index part: for each allowlist name, the first catalog item whose
lowercased name equals it (the Python inner loop breaks on the first hit).
The Pinecone fallback for names absent from the local catalog is an external
network call; it is modelled as contributing nothing (the inputs considered
here carry all signature items in the local catalog, so the fallback is not
exercised). -/
def get_signature_items (food_items : List Food) : List Food :=
  signature_names.foldl (fun acc nm =>
    match food_items.find? (fun food => toLowerStr food.name = toLowerStr nm) with
    | some food => acc ++ [food]
    | none => acc) []

/-- Python `final_matches[-1] = x` on a non-empty list: overwrite the last
element. -/
def setLast (l : List (Food × ℚ)) (x : Food × ℚ) : List (Food × ℚ) :=
  l.set (l.length - 1) x

/-- The popular/signature sub-branch of `_find_with_vector_search`
(food_service.py lines 176-204), as a function of the popularity-filtered
backend result `popular_matches` (an external input, assumed non-empty when
this branch runs), the signature items and `top_k`: append the signature
items whose id is not among the original `existing_ids` with score 1.0,
stable-sort descending, truncate to `top_k`, then the "double-check" loop
that force-writes each still-missing signature item over the *last* slot
(`final_matches[-1]`), testing against the id set `final_ids` computed once
before the loop and never updated. -/
def popular_branch (popular_matches : List (Food × ℚ))
    (signature_items : List Food) (top_k : Nat) : List (Food × ℚ) :=
  let merged := popular_matches
    ++ (signature_items.filter
          (fun s => decide (s.id ∉ popular_matches.map (fun fs => fs.1.id)))).map
        (fun s => (s, (1 : ℚ)))
  let final0 := (sortDesc merged).take top_k
  signature_items.foldl (fun fin sig =>
    if sig.id ∉ final0.map (fun fs => fs.1.id) then
      (if top_k ≤ fin.length then setLast fin (sig, (1 : ℚ))
       else fin ++ [(sig, (1 : ℚ))])
    else fin) final0

/-- The four signature items, present in the local catalog. -/
def sigTea : Food := ⟨"s1", "Niloufer Special Tea", "", "", "", [], 0⟩

def sigCoffee : Food := ⟨"s2", "Niloufer Special Coffee", "", "", "", [], 0⟩

def sigMaska : Food := ⟨"s3", "Maska Bun", "", "", "", [], 0⟩

def sigKhara : Food := ⟨"s4", "Khara Bun", "", "", "", [], 0⟩

/-- A catalog containing exactly the four signature items. -/
def sigCatalogEx : List Food := [sigTea, sigCoffee, sigMaska, sigKhara]

/-- Claim C5 is a code bug, demonstrated at a concrete input: `top_k = 4`,
the popularity sub-query returns one non-signature item `X` with score 1.0,
and the catalog holds all four signature items.  The interim sorted
truncation is `[X, Tea, Coffee, Maska]`; the "double-check" loop then
overwrites the *last* slot with the missing `Khara Bun`, evicting the
signature item `Maska Bun` while keeping the non-signature `X` - although
evicting `X` would have fit all four signature items within `top_k`.  The
code's own comments ("Take top_k results, but ensure signature items are
included", "Double-check that all signature items are in the final
results") and the claim both require every catalog signature item in the
output, with only the lowest-scoring non-signature entries evicted. -/
theorem popular_branch_signature_eviction_bug :
    get_signature_items sigCatalogEx = [sigTea, sigCoffee, sigMaska, sigKhara] ∧
    popular_branch [((⟨"x", "Chicken Biryani", "", "", "", [], 0⟩ : Food), (1 : ℚ))]
        (get_signature_items sigCatalogEx) 4
      = [((⟨"x", "Chicken Biryani", "", "", "", [], 0⟩ : Food), (1 : ℚ)),
         (sigTea, (1 : ℚ)), (sigCoffee, (1 : ℚ)), (sigKhara, (1 : ℚ))] ∧
    sigMaska ∈ sigCatalogEx ∧
    sigMaska ∉ (popular_branch
        [((⟨"x", "Chicken Biryani", "", "", "", [], 0⟩ : Food), (1 : ℚ))]
        (get_signature_items sigCatalogEx) 4).map Prod.fst := by
  refine ⟨by decide, by decide, by decide, by decide⟩

/-- The per-candidate boost of the special/house-name post-filter
(food_service.py lines 218-224): +0.1 when the lowercased product name
contains "niloufer" or "special", otherwise unchanged. -/
def boostOne (fs : Food × ℚ) : Food × ℚ :=
  if substrB "niloufer" (toLowerStr fs.1.name)
     || substrB "special" (toLowerStr fs.1.name)
  then (fs.1, fs.2 + 1/10) else fs

/-- The special/house-name post-filter of `_find_with_vector_search`
(food_service.py lines 215-228): build the boosted list (the Python append
loop is a map) and re-sort descending by the boosted score. -/
def boost_special (ms : List (Food × ℚ)) : List (Food × ℚ) :=
  sortDesc (ms.map boostOne)

theorem boostOne_fst (fs : Food × ℚ) : (boostOne fs).1 = fs.1 := by
  unfold boostOne
  split
  · rfl
  · rfl

/-- Claim C6: the special/house-name post-filter is a pure re-ranking: its
output is a permutation of the boosted input (so the multiset of food items
is exactly that of the input - nothing added, nothing removed), each entry
carries either its original score or its original score plus the fixed 0.1
bonus, and the result is sorted by descending score. -/
theorem boost_special_pure_reranking (ms : List (Food × ℚ)) :
    List.Perm (boost_special ms) (ms.map boostOne) ∧
    List.Perm ((boost_special ms).map Prod.fst) (ms.map Prod.fst) ∧
    (boost_special ms).Pairwise (fun a b => b.2 ≤ a.2) ∧
    (∀ fs ∈ boost_special ms,
        ∃ gs ∈ ms, fs = gs ∨ fs = (gs.1, gs.2 + 1/10)) := by
  have hperm : List.Perm (boost_special ms) (ms.map boostOne) :=
    sortDesc_perm _
  have hfst : (ms.map boostOne).map Prod.fst = ms.map Prod.fst := by
    rw [List.map_map]
    apply List.map_congr_left
    intro fs _
    exact boostOne_fst fs
  refine ⟨hperm, ?_, sortDesc_pairwise _, ?_⟩
  · have h := hperm.map Prod.fst
    rw [hfst] at h
    exact h
  · intro fs hfs
    rcases List.mem_map.mp (hperm.mem_iff.mp hfs) with ⟨gs, hgs, rfl⟩
    refine ⟨gs, hgs, ?_⟩
    unfold boostOne
    split
    · right; rfl
    · left; rfl

/-- A conversation message `{role, content}`.  The Python dict also carries
a wall-clock `timestamp` that no consumer in the matching core reads; it is
omitted from the model. -/
structure Msg where
  role : String
  content : String
deriving DecidableEq, Repr

/-- The fixed greeting vocabulary `['hi', 'hello', 'hey']`. -/
def greetings : List String := ["hi", "hello", "hey"]

/-- The signature/popular trigger vocabulary of `_build_contextual_query`
(food_service.py line 120). -/
def trigger_words : List String :=
  ["special", "popular", "signature", "famous", "must try", "must-try"]

/-- `conversation_history[-2:]`: the last two messages (of any role). -/
def lastTwo (history : List Msg) : List Msg := history.drop (history.length - 2)

/-- Loop body of the context-collection loop (food_service.py lines
127-131): user-role messages append their stripped content unless it is
empty or lowercases to a bare greeting. -/
def contextStep (parts : List String) (msg : Msg) : List String :=
  if msg.role = "user" then
    (if pyStrip msg.content ≠ "" ∧ toLowerStr (pyStrip msg.content) ∉ greetings
     then parts ++ [pyStrip msg.content] else parts)
  else parts

/-- The contribution of one message to the context parts, as an `Option`. -/
def contextPick (msg : Msg) : Option String :=
  if msg.role = "user" ∧ pyStrip msg.content ≠ ""
     ∧ toLowerStr (pyStrip msg.content) ∉ greetings
  then some (pyStrip msg.content) else none

/-- `FoodService._build_contextual_query` (food_service.py lines 101-134):
bare greetings pass through unchanged; signature/popular trigger words
prepend the fixed promotional phrase; otherwise the query is space-joined
with the qualifying user turns among the last two history messages. -/
def build_contextual_query (query : String) (history : List Msg) : String :=
  if pyStrip (toLowerStr query) ∈ greetings then query
  else if trigger_words.any (fun w => substrB w (pyStrip (toLowerStr query))) then
    "Niloufer special signature items " ++ query
  else joinSpace ((lastTwo history).foldl contextStep [query])

/-- The Contextual Query Builder as worded by the specification and claim
C7 (used only to exhibit the divergence): `raw_query` space-joined with up
to the last 2 prior *user* turns - assistant turns excluded from the count
of 2 - skipping turns that normalize to a bare greeting. -/
def build_query_spec (query : String) (history : List Msg) : String :=
  joinSpace (query ::
    ((((history.filter (fun m => m.role = "user")).map (fun m => m.content)).drop
        (((history.filter (fun m => m.role = "user")).map (fun m => m.content)).length
          - 2)).filter
      (fun c => pyStrip (toLowerStr c) ∉ greetings)))

theorem foldl_contextStep (l : List Msg) (acc : List String) :
    l.foldl contextStep acc = acc ++ l.filterMap contextPick := by
  induction l generalizing acc with
  | nil => simp
  | cons m rest ih =>
    by_cases hp : m.role = "user" ∧ pyStrip m.content ≠ ""
        ∧ toLowerStr (pyStrip m.content) ∉ greetings
    · have hstep : contextStep acc m = acc ++ [pyStrip m.content] := by
        unfold contextStep
        rw [if_pos hp.1, if_pos ⟨hp.2.1, hp.2.2⟩]
      have hpick : contextPick m = some (pyStrip m.content) := by
        unfold contextPick
        rw [if_pos hp]
      rw [List.foldl_cons, hstep, ih, List.filterMap_cons, hpick]
      simp
    · have hpick : contextPick m = none := by
        unfold contextPick
        rw [if_neg hp]
      have hstep : contextStep acc m = acc := by
        unfold contextStep
        by_cases h1 : m.role = "user"
        · rw [if_pos h1, if_neg (fun hh => hp ⟨h1, hh.1, hh.2⟩)]
        · rw [if_neg h1]
      rw [List.foldl_cons, hstep, ih, List.filterMap_cons, hpick]

/-- Claim C7 counterexample: history `[user "u1", user "u2", assistant "a"]`
with query "cheap snacks" (no greeting, no trigger word).  The last 2 prior
*user* turns are "u1" and "u2", so the claim requires both in the output;
but the code windows the last 2 *messages* (the assistant turn occupies a
slot), returning "cheap snacks u2" and dropping "u1".  This refutes the
claim as stated. -/
theorem build_contextual_query_counterexample :
    build_contextual_query "cheap snacks"
        [⟨"user", "u1"⟩, ⟨"user", "u2"⟩, ⟨"assistant", "a"⟩] = "cheap snacks u2" ∧
    build_query_spec "cheap snacks"
        [⟨"user", "u1"⟩, ⟨"user", "u2"⟩, ⟨"assistant", "a"⟩] = "cheap snacks u1 u2" ∧
    substrB "u1" (build_contextual_query "cheap snacks"
        [⟨"user", "u1"⟩, ⟨"user", "u2"⟩, ⟨"assistant", "a"⟩]) = false := by
  refine ⟨by decide, by decide, by decide⟩

/-- Claim C7 (amended): for a query that is neither a bare greeting nor
contains a signature/popular trigger word, the builder returns the query
space-joined with the stripped contents of the *user-role messages among
the last 2 messages of the whole history* (assistant messages occupy
window slots rather than being excluded from the count of 2), skipping
contents that strip to empty or whose stripped lowercase form is a bare
greeting. -/
theorem build_contextual_query_window (query : String) (history : List Msg)
    (hg : pyStrip (toLowerStr query) ∉ greetings)
    (ht : trigger_words.any (fun w => substrB w (pyStrip (toLowerStr query))) = false) :
    build_contextual_query query history
      = joinSpace (query :: (lastTwo history).filterMap contextPick) := by
  rw [build_contextual_query, if_neg hg, if_neg (by simp [ht]), foldl_contextStep]
  rfl

/-- Witness for the amended C7 at a concrete input. -/
theorem build_contextual_query_window_witness :
    pyStrip (toLowerStr "cheap snacks") ∉ greetings ∧
    build_contextual_query "cheap snacks" [⟨"user", "pizza"⟩, ⟨"assistant", "ok"⟩]
      = joinSpace ("cheap snacks"
          :: (lastTwo [⟨"user", "pizza"⟩, ⟨"assistant", "ok"⟩]).filterMap contextPick) :=
  ⟨by decide,
   build_contextual_query_window "cheap snacks"
     [⟨"user", "pizza"⟩, ⟨"assistant", "ok"⟩] (by decide) (by decide)⟩

/-- The contextual-reference pronoun vocabulary of `_is_followup_question`
(main.py line 141). -/
def contextual_refs : List String :=
  ["these", "those", "them", "it", "that", "this", "which"]

/-- The food-property vocabulary of `_is_followup_question` (main.py line
145). -/
def food_property_words : List String :=
  ["calorie", "nutrient", "price", "cost", "how much"]

/-- `_is_followup_question` (main.py lines 130-149): false on an empty
history, otherwise substring containment of any contextual-reference
pronoun or food-property word in the lowercased, stripped query. -/
def is_followup_question (query : String) (conversation_history : List Msg) : Bool :=
  if conversation_history = [] then false
  else
    contextual_refs.any (fun r => substrB r (pyStrip (toLowerStr query)))
    || food_property_words.any (fun w => substrB w (pyStrip (toLowerStr query)))

/-- Guard for the strip-invariance of substring search: the needle is
non-empty and neither its first nor its last character is whitespace (true
of every keyword above, including "how much", whose only space is
internal). -/
def edgeOk (n : List Char) : Bool :=
  match n, n.reverse with
  | x :: _, y :: _ => !isWs x && !isWs y
  | _, _ => false

theorem infix_cons_ws_iff {x c : Char} {xs t : List Char}
    (hx : isWs x = false) (hc : isWs c = true) :
    ((x :: xs) <:+: (c :: t)) ↔ ((x :: xs) <:+: t) := by
  constructor
  · rintro ⟨s, u, he⟩
    cases s with
    | nil =>
      rw [List.nil_append] at he
      have hxc : x = c := by
        have h2 := congrArg (fun l => l.head?) he
        simpa using h2
      rw [hxc, hc] at hx
      cases hx
    | cons a s' =>
      have ht : s' ++ (x :: xs) ++ u = t := by
        have h2 := congrArg List.tail he
        simpa using h2
      exact ⟨s', u, ht⟩
  · intro h
    exact h.trans (List.suffix_cons c t).isInfix

theorem infix_append_ws_left {x : Char} {xs : List Char} (hx : isWs x = false) :
    ∀ (w core : List Char), (∀ c ∈ w, isWs c = true) →
      ((x :: xs) <:+: w ++ core ↔ (x :: xs) <:+: core) := by
  intro w
  induction w with
  | nil => intro core _; simp
  | cons c w2 ih =>
    intro core hws
    rw [List.cons_append,
      infix_cons_ws_iff hx (hws c (List.mem_cons_self c w2)),
      ih core (fun d hd => hws d (List.mem_cons_of_mem c hd))]

theorem infix_append_ws_right (n : List Char) (y : Char) (ys : List Char)
    (hrev : n.reverse = y :: ys) (hy : isWs y = false) :
    ∀ (core w : List Char), (∀ c ∈ w, isWs c = true) →
      (n <:+: core ++ w ↔ n <:+: core) := by
  intro core w hws
  constructor
  · intro h
    have h1 : n.reverse <:+: (core ++ w).reverse := List.reverse_infix.mpr h
    rw [List.reverse_append, hrev] at h1
    have h2 : (y :: ys) <:+: core.reverse :=
      (infix_append_ws_left hy w.reverse core.reverse
        (fun c hc => hws c (List.mem_reverse.mp hc))).mp h1
    rw [← hrev] at h2
    exact List.reverse_infix.mp h2
  · intro h
    exact h.trans (List.prefix_append core w).isInfix

theorem trimL_decomp (l : List Char) :
    ∃ w1 w2, l = w1 ++ (trimL l ++ w2)
      ∧ (∀ c ∈ w1, isWs c = true) ∧ (∀ c ∈ w2, isWs c = true) := by
  refine ⟨l.takeWhile isWs, ((l.dropWhile isWs).reverse.takeWhile isWs).reverse,
    ?_, ?_, ?_⟩
  · have hd : l.dropWhile isWs
        = trimL l ++ ((l.dropWhile isWs).reverse.takeWhile isWs).reverse := by
      have h1 : (l.dropWhile isWs).reverse
          = (l.dropWhile isWs).reverse.takeWhile isWs
            ++ (l.dropWhile isWs).reverse.dropWhile isWs :=
        (List.takeWhile_append_dropWhile isWs _).symm
      have h2 := congrArg List.reverse h1
      rw [List.reverse_reverse, List.reverse_append] at h2
      exact h2
    calc l = l.takeWhile isWs ++ l.dropWhile isWs :=
          (List.takeWhile_append_dropWhile isWs l).symm
      _ = l.takeWhile isWs
          ++ (trimL l ++ ((l.dropWhile isWs).reverse.takeWhile isWs).reverse) := by
          rw [← hd]
  · intro c hc
    exact List.mem_takeWhile_imp hc
  · intro c hc
    exact List.mem_takeWhile_imp (List.mem_reverse.mp hc)

theorem infix_trimL_iff (n : List Char) (hok : edgeOk n = true) (l : List Char) :
    n <:+: trimL l ↔ n <:+: l := by
  rcases trimL_decomp l with ⟨w1, w2, hl, hw1, hw2⟩
  cases n with
  | nil => simp [edgeOk] at hok
  | cons x xs =>
    cases hr : (x :: xs).reverse with
    | nil => exact absurd (congrArg List.length hr) (by simp)
    | cons y ys =>
      have hok2 : isWs x = false ∧ isWs y = false := by
        unfold edgeOk at hok
        rw [hr] at hok
        simpa using hok
      constructor
      · intro h
        have h2 : trimL l <:+: l := ⟨w1, w2, by rw [← List.append_assoc] at hl; exact hl.symm⟩
        exact h.trans h2
      · intro h
        rw [hl, infix_append_ws_left hok2.1 w1 _ hw1,
          infix_append_ws_right (x :: xs) y ys hr hok2.2 (trimL l) w2 hw2] at h
        exact h

theorem substrB_pyStrip (w s : String) (hok : edgeOk w.data = true) :
    substrB w (pyStrip s) = substrB w s := by
  rw [Bool.eq_iff_iff, substrB_iff, substrB_iff]
  exact infix_trimL_iff w.data hok s.data

/-- Claim C8: `is_followup` returns false on an empty history, and on a
non-empty history returns true exactly when the lowercased query contains
(as a substring) one of the contextual-reference pronouns or one of the
food-property words.  (The code additionally strips the lowercased query;
since no keyword starts or ends with whitespace, containment is unaffected,
which is what the strip-invariance lemmas establish.) -/
theorem is_followup_contract (query : String) (history : List Msg) :
    is_followup_question query [] = false ∧
    (history ≠ [] →
      (is_followup_question query history = true ↔
        ∃ w, (w ∈ contextual_refs ∨ w ∈ food_property_words)
          ∧ substrB w (toLowerStr query) = true)) := by
  constructor
  · rw [is_followup_question, if_pos rfl]
  · intro hne
    rw [is_followup_question, if_neg hne]
    have hedge : ∀ w ∈ contextual_refs ++ food_property_words,
        edgeOk w.data = true := by decide
    have hkw : ∀ w ∈ contextual_refs ++ food_property_words,
        substrB w (pyStrip (toLowerStr query)) = substrB w (toLowerStr query) :=
      fun w hw => substrB_pyStrip w _ (hedge w hw)
    constructor
    · intro h
      simp only [Bool.or_eq_true, List.any_eq_true] at h
      rcases h with ⟨r, hr, hsub⟩ | ⟨r, hr, hsub⟩
      · exact ⟨r, Or.inl hr, by
          rw [← hkw r (List.mem_append.mpr (Or.inl hr))]; exact hsub⟩
      · exact ⟨r, Or.inr hr, by
          rw [← hkw r (List.mem_append.mpr (Or.inr hr))]; exact hsub⟩
    · rintro ⟨w, hw, hsub⟩
      simp only [Bool.or_eq_true, List.any_eq_true]
      rcases hw with hw | hw
      · exact Or.inl ⟨w, hw, by
          rw [hkw w (List.mem_append.mpr (Or.inl hw))]; exact hsub⟩
      · exact Or.inr ⟨w, hw, by
          rw [hkw w (List.mem_append.mpr (Or.inr hw))]; exact hsub⟩

/-- Witness for C8 at the specification's own scenario: "what are the
calories in these?" with a non-empty history is classified as a
follow-up. -/
theorem is_followup_contract_witness :
    ([⟨"user", "hi"⟩] : List Msg) ≠ [] ∧
    is_followup_question "what are the calories in these?" [⟨"user", "hi"⟩] = true :=
  ⟨by simp,
   ((is_followup_contract "what are the calories in these?" [⟨"user", "hi"⟩]).2
      (by simp)).mpr ⟨"calorie", Or.inr (by decide), by decide⟩⟩

/-- The retention cap `self.max_history_length = 50` of `SessionService`. -/
def max_history_length : Nat := 50

/-- `SessionService.add_message` (session_service.py lines 44-60), acting on
the stored message list of one session: append the new message, then - if
the cap is exceeded - keep only the last `max_history_length` messages
(`session["messages"][-self.max_history_length:]`).  The wall-clock
`timestamp`/`last_activity` fields are not modelled; `get_or_create_session`
on an existing id returns the stored list itself, so repeated calls on the
same session act on the same list. -/
def add_message (msgs : List Msg) (m : Msg) : List Msg :=
  if max_history_length < (msgs ++ [m]).length
  then (msgs ++ [m]).drop ((msgs ++ [m]).length - max_history_length)
  else msgs ++ [m]

/-- N successive `add_message` calls on a session that starts empty. -/
def run_add_messages (ms : List Msg) : List Msg := ms.foldl add_message []

theorem add_message_lastN (l : List Msg) (m : Msg) :
    add_message (l.drop (l.length - max_history_length)) m
      = (l ++ [m]).drop ((l ++ [m]).length - max_history_length) := by
  unfold add_message
  have hm : max_history_length = 50 := rfl
  have hlen : (l.drop (l.length - max_history_length)).length
      = l.length - (l.length - max_history_length) := List.length_drop _ _
  by_cases hc : l.length < max_history_length
  · have h0 : l.length - max_history_length = 0 := by omega
    have h1 : (l ++ [m]).length - max_history_length = 0 := by
      rw [List.length_append]
      simp only [List.length_singleton]
      omega
    rw [h0, h1, List.drop_zero, List.drop_zero, if_neg]
    rw [List.length_append]
    simp only [List.length_singleton]
    omega
  · have h50 : max_history_length ≤ l.length := by omega
    have hlen2 : (l.drop (l.length - max_history_length)).length = max_history_length := by
      rw [hlen]; omega
    rw [if_pos (by
      rw [List.length_append, hlen2]
      simp only [List.length_singleton]
      omega)]
    have hd1 : (l.drop (l.length - max_history_length) ++ [m]).length
        - max_history_length = 1 := by
      rw [List.length_append, hlen2]
      simp only [List.length_singleton]
      omega
    rw [hd1]
    rw [List.drop_append_of_le_length (by rw [hlen2]; omega)]
    rw [List.drop_drop]
    have hd2 : (l ++ [m]).length - max_history_length = l.length - max_history_length + 1 := by
      rw [List.length_append]
      simp only [List.length_singleton]
      omega
    rw [hd2, List.drop_append_of_le_length (by omega)]

theorem run_add_messages_aux : ∀ (ms l : List Msg),
    ms.foldl add_message (l.drop (l.length - max_history_length))
      = (l ++ ms).drop ((l ++ ms).length - max_history_length) := by
  intro ms
  induction ms with
  | nil => intro l; simp
  | cons m rest ih =>
    intro l
    rw [List.foldl_cons, add_message_lastN, ih (l ++ [m]), List.append_assoc]
    rfl

/-- Claim C9: after N calls to `add_message` on a session that starts with
no messages, the stored message list has length `min N 50` and equals
exactly the most recent 50 messages of the insertion sequence, in insertion
order (the oldest are evicted first). -/
theorem session_retention_contract (ms : List Msg) :
    (run_add_messages ms).length = min ms.length max_history_length ∧
    run_add_messages ms = ms.drop (ms.length - max_history_length) := by
  have h : run_add_messages ms = ms.drop (ms.length - max_history_length) := by
    have h2 := run_add_messages_aux ms []
    simpa [run_add_messages] using h2
  refine ⟨?_, h⟩
  have hm : max_history_length = 50 := rfl
  rw [h, List.length_drop]
  omega

theorem apply_filters_spec {food : Food} {fl : Filters}
    (h : apply_filters food fl = true) :
    (∀ c, fl.category = some c → food.category = c) ∧
    (∀ m, fl.max_calories = some m → food.calories ≤ m) ∧
    (∀ m, fl.min_calories = some m → food.calories ≠ 0 ∧ m ≤ food.calories) ∧
    (∀ d, fl.dietary = some d → d ∈ food.dietary) := by
  unfold apply_filters at h
  simp only [Bool.and_eq_true] at h
  obtain ⟨⟨⟨h1, h2⟩, h3⟩, h4⟩ := h
  refine ⟨?_, ?_, ?_, ?_⟩
  · intro c hc
    rw [hc] at h1
    simpa using h1
  · intro m hmx
    rw [hmx] at h2
    have h2x : (!(decide (food.calories ≠ 0) && decide (m < food.calories))) = true := h2
    by_cases hz : food.calories = 0
    · rw [hz]; exact Nat.zero_le m
    · by_contra hlt
      push_neg at hlt
      rw [show (decide (food.calories ≠ 0)) = true by simpa using hz,
          show (decide (m < food.calories)) = true by simpa using hlt] at h2x
      simp at h2x
  · intro m hmn
    rw [hmn] at h3
    simp only [Bool.and_eq_true, Bool.not_eq_true', decide_eq_true_eq] at h3
    refine ⟨h3.1, ?_⟩
    have h5 := h3.2
    simp only [decide_eq_false_iff_not, not_lt] at h5
    exact h5
  · intro d hd
    rw [hd] at h4
    simpa using h4

/-- Claim C10: in the keyword-fallback path with a filters mapping
supplied, every returned item satisfies all supplied filters - category
equality, calories at most `max_calories`, calories present (non-zero) and
at least `min_calories`, and membership of the requested dietary tag in the
item's parsed dietary list.  Items rejected by the filters are skipped
before scoring, so they never appear regardless of their relevance
score. -/
theorem keyword_filters_respected (food_items : List Food) (query : String)
    (top_k : Nat) (fl : Filters) :
    ∀ p ∈ find_with_keyword_matching food_items query top_k (some fl),
      apply_filters p.1 fl = true ∧
      (∀ c, fl.category = some c → p.1.category = c) ∧
      (∀ m, fl.max_calories = some m → p.1.calories ≤ m) ∧
      (∀ m, fl.min_calories = some m → p.1.calories ≠ 0 ∧ m ≤ p.1.calories) ∧
      (∀ d, fl.dietary = some d → d ∈ p.1.dietary) := by
  intro p hp
  have hp2 : p ∈ scoredFoods food_items query (some fl) := by
    rw [find_with_keyword_matching] at hp
    by_cases hni : food_items = []
    · rw [if_pos hni] at hp
      exact absurd hp (List.not_mem_nil p)
    · rw [if_neg hni] at hp
      exact (sortDesc_perm _).mem_iff.mp (List.take_subset _ _ hp)
  rcases mem_scoredFoods hp2 with ⟨-, -, hfl⟩
  have happ := hfl fl rfl
  exact ⟨happ, apply_filters_spec happ⟩

/-- Witness for C10 at a concrete input: a vegan snack item passing a fully
populated filter set is returned and satisfies the filters. -/
theorem keyword_filters_respected_witness :
    apply_filters (⟨"v1", "vegan salad", "", "Snacks", "", ["vegan"], 100⟩ : Food)
        ⟨some "Snacks", some 200, some 50, some "vegan"⟩ = true :=
  (keyword_filters_respected
      [⟨"v1", "vegan salad", "", "Snacks", "", ["vegan"], 100⟩]
      "vegan" 5 ⟨some "Snacks", some 200, some 50, some "vegan"⟩
      ((⟨"v1", "vegan salad", "", "Snacks", "", ["vegan"], 100⟩ : Food), 16)
      (by decide)).1
